import Mathlib

/-!
Verification development for the marketing-data query service
(`main.py`): the filter builder, the generic aggregation with derived
ratios, the budget-reallocation heuristic, and the request handler
`query_data`.

Modelling conventions used throughout:
* Python floats are modelled as exact rationals (`ℚ`); float literals such
  as `0.7`, `1e-6` denote the corresponding exact rational values.
* Python `None` / missing dict entries are modelled with `Option`.
* Python exceptions that cross the handler boundary are modelled with
  `Except`; `HTTPException` carries a status code and a detail string.
* Mongo documents are modelled as functions `String → Option PyV`.
-/

/-- A scalar value as stored in a Mongo document or used as a Python dict
key: a string, a number, or a datetime. -/
inductive PyV where
  | str : String → PyV
  | num : ℚ → PyV
  | date : ℕ → ℕ → ℕ → ℕ → ℕ → ℕ → ℕ → PyV
  deriving DecidableEq, Repr

/-- Python truthiness of an optional scalar: `None`, the empty string and
the number `0` are falsy, everything else is truthy. -/
def pyTruthy : Option PyV → Bool
  | none => false
  | some (.str s) => s ≠ ""
  | some (.num q) => q ≠ 0
  | some (.date _ _ _ _ _ _ _) => true

/-- Python `a or b` on optional scalars: returns `a` when it is truthy,
otherwise `b` (even when `b` is falsy or absent). -/
def pyOr (a b : Option PyV) : Option PyV :=
  if pyTruthy a then a else b

/-- A naive `datetime.datetime` value (no timezone). -/
structure DateTime where
  year : ℕ
  month : ℕ
  day : ℕ
  hour : ℕ
  minute : ℕ
  second : ℕ
  microsecond : ℕ
  deriving DecidableEq, Repr

/-- Numeric value of a list of decimal digit characters. -/
def natOfDigits (cs : List Char) : ℕ :=
  cs.foldl (fun n c => n * 10 + (c.toNat - 48)) 0

/-- Gregorian leap-year test, as used by `datetime`. -/
def isLeap (y : ℕ) : Bool :=
  (y % 4 == 0 && y % 100 != 0) || (y % 400 == 0)

/-- Number of days in a month, as validated by the `datetime` constructor. -/
def daysInMonth (y m : ℕ) : ℕ :=
  if m = 2 then (if isLeap y then 29 else 28)
  else if m ∈ ([4, 6, 9, 11] : List ℕ) then 30
  else 31

/-- Consume exactly `n` decimal digits from the front of the character
list, returning their value and the rest. -/
def takeDigitsExact : ℕ → List Char → Option (ℕ × List Char)
  | 0, cs => some (0, cs)
  | n + 1, c :: cs =>
      if c.isDigit then
        (takeDigitsExact n cs).map (fun p => ((c.toNat - 48) * 10 ^ n + p.1, p.2))
      else none
  | _ + 1, [] => none

/-- Consume one or two decimal digits (greedy), as CPython `strptime`
field patterns such as `%m`, `%d`, `%H` do. -/
def takeDigits12 : List Char → Option (ℕ × List Char)
  | c1 :: c2 :: rest =>
      if c1.isDigit then
        if c2.isDigit then some (natOfDigits [c1, c2], rest)
        else some (natOfDigits [c1], c2 :: rest)
      else none
  | [c1] => if c1.isDigit then some (natOfDigits [c1], []) else none
  | [] => none

/-- Consume one expected literal character. -/
def expectChar (c : Char) : List Char → Option (List Char)
  | c' :: rest => if c' = c then some rest else none
  | [] => none

/-- Parse the `%Y-%m-%d` prefix (4-digit year, 1-2 digit month and day),
validating ranges the way `datetime.strptime` does; greedy, no
backtracking. Returns the date and the unconsumed rest. -/
def parseDateCore (cs : List Char) : Option (DateTime × List Char) := do
  let (y, cs) ← takeDigitsExact 4 cs
  let cs ← expectChar '-' cs
  let (m, cs) ← takeDigits12 cs
  if 1 ≤ m ∧ m ≤ 12 then
    let cs ← expectChar '-' cs
    let (d, cs) ← takeDigits12 cs
    if 1 ≤ d ∧ d ≤ daysInMonth y m then
      pure (⟨y, m, d, 0, 0, 0, 0⟩, cs)
    else none
  else none

/-- Parse an `%H:%M:%S` time-of-day, validating ranges. -/
def parseTimeCore (cs : List Char) : Option ((ℕ × ℕ × ℕ) × List Char) := do
  let (h, cs) ← takeDigits12 cs
  if h ≤ 23 then
    let cs ← expectChar ':' cs
    let (mi, cs) ← takeDigits12 cs
    if mi ≤ 59 then
      let cs ← expectChar ':' cs
      let (s, cs) ← takeDigits12 cs
      if s ≤ 59 then pure ((h, mi, s), cs) else none
    else none
  else none

/-- Model of `datetime.strptime(s, "%Y-%m-%d")`: the whole string must be
a plain calendar date. -/
def parseFmtDate (s : String) : Option DateTime :=
  match parseDateCore s.toList with
  | some (d, []) => some d
  | _ => none

/-- Model of `datetime.strptime(s, "%Y-%m-%dT%H:%M:%S")`. -/
def parseFmtDateTime (s : String) : Option DateTime :=
  match parseDateCore s.toList with
  | some (d, 'T' :: rest) =>
      match parseTimeCore rest with
      | some ((h, mi, sec), []) => some { d with hour := h, minute := mi, second := sec }
      | _ => none
  | _ => none

/-- Model of `datetime.strptime(s, "%Y-%m-%dT%H:%M:%S.%f")`: one to six
fractional digits, right-padded to microseconds. -/
def parseFmtDateTimeFrac (s : String) : Option DateTime :=
  match parseDateCore s.toList with
  | some (d, 'T' :: rest) =>
      match parseTimeCore rest with
      | some ((h, mi, sec), '.' :: frac) =>
          let ds := frac.takeWhile Char.isDigit
          let rest' := frac.dropWhile Char.isDigit
          if 1 ≤ ds.length ∧ ds.length ≤ 6 ∧ rest' = [] then
            some { d with hour := h, minute := mi, second := sec,
                          microsecond := natOfDigits ds * 10 ^ (6 - ds.length) }
          else none
      | _ => none
  | _ => none

/-- Consume exactly two decimal digits. -/
def takeDigits2 (cs : List Char) : Option (ℕ × List Char) :=
  takeDigitsExact 2 cs

/-- Modelled subset of `datetime.fromisoformat`: a zero-padded
`YYYY-MM-DD` date, optionally followed by a `T` or space separator and a
time `HH[:MM[:SS[.f+]]]`. Timezone suffixes are out of the modelled
subset and are treated as unparseable. -/
def parseFromIso (s : String) : Option DateTime := do
  let cs := s.toList
  let (y, cs) ← takeDigitsExact 4 cs
  let cs ← expectChar '-' cs
  let (m, cs) ← takeDigits2 cs
  let cs ← expectChar '-' cs
  let (d, cs) ← takeDigits2 cs
  if 1 ≤ m ∧ m ≤ 12 ∧ 1 ≤ d ∧ d ≤ daysInMonth y m then
    match cs with
    | [] => pure ⟨y, m, d, 0, 0, 0, 0⟩
    | sep :: rest =>
        if sep = 'T' ∨ sep = ' ' then do
          let (h, rest) ← takeDigits2 rest
          if h ≤ 23 then
            match rest with
            | [] => pure ⟨y, m, d, h, 0, 0, 0⟩
            | ':' :: rest => do
                let (mi, rest) ← takeDigits2 rest
                if mi ≤ 59 then
                  match rest with
                  | [] => pure ⟨y, m, d, h, mi, 0, 0⟩
                  | ':' :: rest => do
                      let (sec, rest) ← takeDigits2 rest
                      if sec ≤ 59 then
                        match rest with
                        | [] => pure ⟨y, m, d, h, mi, sec, 0⟩
                        | '.' :: frac =>
                            let ds := frac.takeWhile Char.isDigit
                            let rest' := frac.dropWhile Char.isDigit
                            if 1 ≤ ds.length ∧ ds.length ≤ 6 ∧ rest' = [] then
                              pure ⟨y, m, d, h, mi, sec, natOfDigits ds * 10 ^ (6 - ds.length)⟩
                            else none
                        | _ => none
                      else none
                  | _ => none
                else none
            | _ => none
          else none
        else none
  else none

/-- The three `strptime` candidate formats tried by `_parse_iso`, in
source order. -/
def formatParsers : List (String → Option DateTime) :=
  [parseFmtDate, parseFmtDateTime, parseFmtDateTimeFrac]

/-- The `for fmt in (...)` loop of `_parse_iso`: try each format in
order, returning the first success. -/
def tryFormats : List (String → Option DateTime) → String → Option DateTime
  | [], _ => none
  | f :: fs, s =>
      match f s with
      | some d => some d
      | none => tryFormats fs s

/-- Model of `_parse_iso`: `None` for a missing or empty string, then the
three `strptime` formats in order, then `fromisoformat`, and `None`
(never an exception) when everything fails. -/
def parse_iso (s : Option String) : Option DateTime :=
  match s with
  | none => none
  | some s =>
      if s = "" then none
      else
        match tryFormats formatParsers s with
        | some d => some d
        | none => parseFromIso s

/-- The end-of-day normalization applied to the upper date bound:
`dt_to.replace(hour=23, minute=59, second=59, microsecond=999999)`. -/
def endOfDay (d : DateTime) : DateTime :=
  { d with hour := 23, minute := 59, second := 59, microsecond := 999999 }

/-- The date condition of the query: optional `$gte` and `$lte` bounds. -/
structure DateRange where
  gte : Option DateTime
  lte : Option DateTime
  deriving DecidableEq, Repr

/-- Construction of `q["date"]` in `query_data`: present when at least
one bound parsed; the upper bound is pushed to the end of its day. -/
def buildDateFilter (dtFrom dtTo : Option DateTime) : Option DateRange :=
  if dtFrom.isSome || dtTo.isSome then some ⟨dtFrom, dtTo.map endOfDay⟩ else none

/-- Linearization of a datetime for comparisons (fields are compared
lexicographically, which this encoding preserves for in-range values). -/
def dtKey (d : DateTime) : ℕ :=
  ((((((d.year * 13 + d.month) * 32 + d.day) * 24 + d.hour) * 60 + d.minute) * 60
      + d.second) * 1000000 + d.microsecond)

/-- A single match condition on one document field. -/
inductive Matcher where
  | regexCI : String → Matcher
  | eqV : PyV → Matcher
  deriving DecidableEq, Repr

/-- Lower-cased character list of a string. -/
def lowerChars (s : String) : List Char :=
  s.toList.map Char.toLower

/-- Substring test on character lists. -/
def containsSub (needle : List Char) : List Char → Bool
  | [] => needle.isEmpty
  | c :: rest => needle.isPrefixOf (c :: rest) || containsSub needle rest

/-- Case-insensitive substring match, modelling the `$regex .. $options i`
conditions built from plain channel tokens (regex metacharacters are out
of the modelled subset). -/
def regexCIMatch (pat s : String) : Bool :=
  containsSub (lowerChars pat) (lowerChars s)

/-- A Mongo document: field name to optional scalar value. -/
abbrev Rec := String → Option PyV

/-- Whether one `(field, matcher)` condition accepts a document. -/
def matchCond (r : Rec) : String × Matcher → Bool
  | (field, .regexCI pat) =>
      match r field with
      | some (.str s) => regexCIMatch pat s
      | _ => false
  | (field, .eqV v) => r field = some v

/-- The whole query predicate built by `query_data`: a date range
combined with the `$or` of the per-token channel conditions. -/
structure QueryFilter where
  date : Option DateRange
  orConds : List (String × Matcher)
  deriving DecidableEq, Repr

/-- Whether a document satisfies the date condition. -/
def matchDate (dr : Option DateRange) (r : Rec) : Bool :=
  match dr with
  | none => true
  | some ⟨g, l⟩ =>
      match r "date" with
      | some (.date y mo d h mi s us) =>
          let k := dtKey ⟨y, mo, d, h, mi, s, us⟩
          (match g with | none => true | some b => dtKey b ≤ k) &&
          (match l with | none => true | some b => k ≤ dtKey b)
      | _ => false

/-- Whether a document satisfies the whole filter (`$match` semantics:
the date condition and, when channel conditions exist, at least one of
the `$or` branches). -/
def matchesFilter (f : QueryFilter) (r : Rec) : Bool :=
  matchDate f.date r && (f.orConds.isEmpty || f.orConds.any (matchCond r))

/-- Whether a token consists only of decimal digits and is non-empty,
modelling `str.isdigit` for ASCII input. -/
def isDigitStr (s : String) : Bool :=
  s.toList ≠ [] && s.toList.all Char.isDigit

/-- The static alias table `channel_mapping` from `query_data`. -/
def channel_mapping : List (String × List PyV) :=
  [("amazon", [.num 2, .num 33, .str "amazon", .str "Amazon"]),
   ("walmart", [.num 16, .num 21, .str "walmart", .str "Walmart"]),
   ("kroger", [.num 32, .str "kroger", .str "Kroger"]),
   ("meijer", [.num 21, .str "meijer", .str "Meijer"])]

/-- The match conditions contributed by one channel token: fuzzy matches
on four fields, an exact numeric `retailer_id` match for digit-only
tokens, and the alias-table expansions. -/
def tokenConditions (ch : String) : List (String × Matcher) :=
  [("channel", .regexCI ch), ("source", .regexCI ch),
   ("retailer_name", .regexCI ch), ("retailer_id", .eqV (.str ch))]
  ++ (if isDigitStr ch then [("retailer_id", Matcher.eqV (.num (natOfDigits ch.toList)))] else [])
  ++ (match channel_mapping.find? (fun p => p.1 = ch.toLower) with
      | none => []
      | some (_, vs) =>
          vs.map (fun v =>
            match v with
            | .num n => ("retailer_id", Matcher.eqV (.num n))
            | .str s => ("retailer_name", Matcher.regexCI s)
            | .date _ _ _ _ _ _ _ => ("retailer_name", Matcher.regexCI "")))

/-- Channel conditions for the whole request: Python `if payload.channels:`
skips the block for a missing or empty list. -/
def channelConditions (channels : Option (List String)) : List (String × Matcher) :=
  match channels with
  | none => []
  | some l => if l = [] then [] else l.flatMap tokenConditions

/-- The numeric reading of an optional scalar used by `$sum` with
`$ifNull [.., 0]`: numbers count, anything else counts as zero. -/
def numOf : Option PyV → ℚ
  | some (.num q) => q
  | _ => 0

/-- Sum of one metric over the documents of one group. -/
def sumFor (matched : List Rec) (groupBy : String) (k : Option PyV) (m : String) : ℚ :=
  ((matched.filter (fun r => r groupBy = k)).map (fun r => numOf (r m))).sum

/-- A derived-ratio value from the `$project` stage: the quotient when
the denominator is positive, and the explicit null marker otherwise. -/
def divOrNull (num den : ℚ) : Option ℚ :=
  if den > 0 then some (num / den) else none

/-- One aggregated summary row: the group key, the summed metrics (an
association list keyed by metric name), and the four derived-ratio slots.
An outer `none` means the key is not in the projected document at all;
`some none` means the key is present with a null value. -/
structure AggRow where
  key : Option PyV
  vals : List (String × ℚ)
  roas : Option (Option ℚ)
  ctr : Option (Option ℚ)
  cpc : Option (Option ℚ)
  conversion_rate : Option (Option ℚ)
  deriving DecidableEq, Repr

/-- Lookup of a summed metric on a row (`r.get(k)`). -/
def getVal? (row : AggRow) (m : String) : Option ℚ :=
  (row.vals.find? (fun p => p.1 = m)).map (fun p => p.2)

/-- The `$project` stage applied to one group's sums: metrics are copied,
and each derived ratio is added exactly when both of its source metrics
were requested. -/
def mkAggRow (metrics : List String) (k : Option PyV) (s : String → ℚ) : AggRow :=
  { key := k
    vals := metrics.map (fun m => (m, s m))
    roas := if "ad_sales" ∈ metrics ∧ "ad_spend" ∈ metrics then
        some (divOrNull (s "ad_sales") (s "ad_spend")) else none
    ctr := if "clicks" ∈ metrics ∧ "impressions" ∈ metrics then
        some (divOrNull (s "clicks") (s "impressions")) else none
    cpc := if "ad_spend" ∈ metrics ∧ "clicks" ∈ metrics then
        some (divOrNull (s "ad_spend") (s "clicks")) else none
    conversion_rate := if "orders" ∈ metrics ∧ "clicks" ∈ metrics then
        some (divOrNull (s "orders") (s "clicks")) else none }

/-- Descending insertion by a sort key. -/
def insertDesc (f : AggRow → ℚ) (x : AggRow) : List AggRow → List AggRow
  | [] => [x]
  | y :: ys => if f y ≤ f x then x :: y :: ys else y :: insertDesc f x ys

/-- Descending sort by a sort key, modelling `$sort {field: -1}` (the
relative order of tied rows is unspecified upstream). -/
def sortByDesc (f : AggRow → ℚ) (l : List AggRow) : List AggRow :=
  l.foldr (insertDesc f) []

/-- Model of `_aggregate_generic`: filter the collection, group by the
requested field with null-coalescing sums over the requested metrics,
project the derived ratios, sort descending by the sort key and truncate
to `top_n` (a falsy `top_n` keeps everything). -/
def aggregate_generic (filt : QueryFilter) (recs : List Rec) (groupBy : String)
    (metrics : List String) (topn : Option ℕ) (sortBy : String) : List AggRow :=
  let matched := recs.filter (matchesFilter filt)
  let keys := (matched.map (fun r => r groupBy)).dedup
  let rows := keys.map (fun k => mkAggRow metrics k (sumFor matched groupBy k))
  let sorted := sortByDesc (fun row => (getVal? row sortBy).getD 0) rows
  match topn with
  | none => sorted
  | some 0 => sorted
  | some n => sorted.take n

/-- Round-half-to-even of a rational to an integer, as Python `round`
does on the exact value (ties at the binary-float level can differ from
exact decimal ties; no theorem below depends on tie behaviour). -/
def roundHalfEven (q : ℚ) : ℤ :=
  let f := q - (⌊q⌋ : ℚ)
  if f < 1 / 2 then ⌊q⌋
  else if f > 1 / 2 then ⌊q⌋ + 1
  else if 2 ∣ ⌊q⌋ then ⌊q⌋ else ⌊q⌋ + 1

/-- Python `round(x, 2)` on the idealized exact value. -/
def round2 (q : ℚ) : ℚ :=
  (roundHalfEven (100 * q) : ℚ) / 100

/-- Python truthiness of an optional number (`None` and `0` are falsy). -/
def pyTruthyQ : Option ℚ → Bool
  | none => false
  | some q => q ≠ 0

/-- A row as consumed by `_suggest_reallocation`: any dict exposing the
three key-candidate fields, the two performance ratios and the current
spend (each possibly absent). -/
structure ChRow where
  channel : Option PyV
  retailer_id : Option PyV
  retailer_name : Option PyV
  roas : Option ℚ
  conversion_rate : Option ℚ
  ad_spend : Option ℚ
  deriving DecidableEq, Repr

/-- The constraints object with its two recognized optional entries. -/
structure Constraints where
  min_roas : Option ℚ
  max_spend : Option ℚ
  deriving DecidableEq, Repr

/-- Python `ch.get(k) or 0.0` for a numeric field: absent and `0.0` both
give `0.0`, any other number gives itself. -/
def orZero : Option ℚ → ℚ
  | none => 0
  | some q => q

/-- The identifying key of a row:
`ch.get("channel") or ch.get("retailer_id") or ch.get("retailer_name")`. -/
def resolveKey (ch : ChRow) : Option PyV :=
  pyOr (pyOr ch.channel ch.retailer_id) ch.retailer_name

/-- A row's score before the flooring and epsilon padding: the weighted
ROAS/conversion blend, halved when the min-ROAS constraint is truthy and
the row's ROAS lies below it. -/
def rawScore (minRoas : Option ℚ) (ch : ChRow) : ℚ :=
  let roas := orZero ch.roas
  let conv := orZero ch.conversion_rate
  let score := roas * 0.7 + conv * 0.3
  if pyTruthyQ minRoas && decide (roas < minRoas.getD 0) then score * 0.5 else score

/-- The score actually stored for a row: `max(score, 0.0) + 1e-6`. -/
def padScore (minRoas : Option ℚ) (ch : ChRow) : ℚ :=
  max (rawScore minRoas ch) 0 + 1e-6

/-- The scores mapping: an association list with Python-dict insertion
semantics (an existing key is updated in place, a new key is appended). -/
abbrev SDict := List (Option PyV × ℚ)

/-- Dict insertion (`scores[key] = val`): update the entry in place when
the key exists, append at the end otherwise. -/
def dinsert : SDict → Option PyV → ℚ → SDict
  | [], k, v => [(k, v)]
  | p :: d, k, v => if p.1 = k then (k, v) :: d else p :: dinsert d k v

/-- Dict lookup (`scores.get`). -/
def dlookup (d : SDict) (k : Option PyV) : Option ℚ :=
  (d.find? (fun p => p.1 = k)).map (fun p => p.2)

/-- Sum of the dict's values (`sum(scores.values())`). -/
def dvaluesSum (d : SDict) : ℚ :=
  (d.map (fun p => p.2)).sum

/-- The first loop of `_suggest_reallocation`: fill the scores dict,
keyed by each row's resolved key (later rows overwrite earlier ones that
resolve to the same key). -/
def buildScores (minRoas : Option ℚ) (rows : List ChRow) : SDict :=
  rows.foldl (fun d ch => dinsert d (resolveKey ch) (padScore minRoas ch)) []

/-- The normalization divisor `sum(scores.values()) or 1.0`. -/
def totalScore (minRoas : Option ℚ) (rows : List ChRow) : ℚ :=
  let s := dvaluesSum (buildScores minRoas rows)
  if s = 0 then 1 else s

/-- `current_total`: the sum of all rows' current spend. -/
def currentTotal (rows : List ChRow) : ℚ :=
  (rows.map (fun ch => (ch.ad_spend).getD 0)).sum

/-- `target_total`: `current_total` when the max-spend constraint is
falsy, otherwise `min(current_total, max_spend)` — but raised to
`max_spend` when `max_spend` exceeds `current_total`. -/
def targetTotal (current : ℚ) (maxSpend : Option ℚ) : ℚ :=
  let t := if pyTruthyQ maxSpend then min current (maxSpend.getD 0) else current
  if pyTruthyQ maxSpend && decide (maxSpend.getD 0 > current) then maxSpend.getD 0 else t

/-- The raw proportional share of a row: its stored score (with the
`1e-6` dict-lookup default) over the score total, times the target. -/
def rawShare (rows : List ChRow) (cons : Constraints) (ch : ChRow) : ℚ :=
  let sc := (dlookup (buildScores cons.min_roas rows) (resolveKey ch)).getD 1e-6
  sc / totalScore cons.min_roas rows * targetTotal (currentTotal rows) cons.max_spend

/-- The clamped share of a row: `max(cur*0.5, min(s, cur*1.5))` when the
row has positive current spend, and `max(cur*0.5, min(s, s))` otherwise
(the upper clamp reference degenerates to the raw share itself). -/
def clampedShare (rows : List ChRow) (cons : Constraints) (ch : ChRow) : ℚ :=
  let cur := (ch.ad_spend).getD 0
  let s := rawShare rows cons ch
  let lower := cur * 0.5
  let upper := if cur > 0 then cur * 1.5 else s
  max lower (min s upper)

/-- One emitted suggestion: the resolved key, current and suggested
spend rounded to two decimals, and the two ratio values the rationale
string embeds. -/
structure Suggestion where
  channel : Option PyV
  current : ℚ
  suggested : ℚ
  reason : Option ℚ × Option ℚ
  deriving DecidableEq, Repr

/-- The suggestion emitted for one row. -/
def suggestOne (rows : List ChRow) (cons : Constraints) (ch : ChRow) : Suggestion :=
  { channel := resolveKey ch
    current := round2 ((ch.ad_spend).getD 0)
    suggested := round2 (clampedShare rows cons ch)
    reason := (ch.roas, ch.conversion_rate) }

/-- Model of `_suggest_reallocation` (the `kpi` argument is accepted and
ignored, as in the source). -/
def suggest_reallocation (channels_summary : List ChRow) (kpi : Option String)
    (constraints : Constraints) : List Suggestion :=
  let _ := kpi
  channels_summary.map (suggestOne channels_summary constraints)

/-- An HTTP exception: status code and detail string. -/
structure HTTPError where
  status : ℕ
  detail : String
  deriving DecidableEq, Repr

/-- The keys of the module-level `COLLECTIONS` table, in source order. -/
def COLLECTION_NAMES : List String :=
  ["retailer_daily_spend", "retailer_keywords_daily", "retailer_page_type_daily",
   "retailer_product_daily", "budget", "brand", "retailer", "campaign"]

/-- Model of `_get_collection`: a falsy name (missing or empty) defaults
to `retailer_daily_spend`; a name outside the table raises a 400; a
registered name resolves to itself. -/
def get_collection (colName : Option String) : Except HTTPError String :=
  match colName with
  | none => .ok "retailer_daily_spend"
  | some n =>
      if n = "" then .ok "retailer_daily_spend"
      else if n ∈ COLLECTION_NAMES then .ok n
      else .error ⟨400, "Unknown collection: " ++ n⟩

/-- The grouping field chosen by `query_data` from the collection name
(every unrecognized or missing name falls to the default branch). -/
def groupByFor (collection : Option String) : String :=
  if collection = some "retailer_keywords_daily" then "keywords"
  else if collection = some "retailer_page_type_daily" then "page_type"
  else if collection = some "retailer_product_daily" then "product_id"
  else "retailer_id"

/-- The metric set chosen by `query_data` from the collection name.
Every branch of the source requests the same five metrics. -/
def metricsFor (collection : Option String) : List String :=
  if collection = some "retailer_keywords_daily" then
    ["impressions", "clicks", "ad_spend", "ad_sales", "ad_units"]
  else if collection = some "retailer_page_type_daily" then
    ["impressions", "clicks", "ad_spend", "ad_sales", "ad_units"]
  else if collection = some "retailer_product_daily" then
    ["impressions", "clicks", "ad_spend", "ad_sales", "ad_units"]
  else
    ["impressions", "clicks", "ad_spend", "ad_sales", "ad_units"]

/-- Reading a summary row as a reallocation-engine row: the projected
document carries the group key under the group-by field name, the summed
spend under `ad_spend`, and null ratios read back as absent. -/
def aggRowToChRow (groupBy : String) (row : AggRow) : ChRow :=
  { channel := if groupBy = "channel" then row.key else none
    retailer_id := if groupBy = "retailer_id" then row.key else none
    retailer_name := if groupBy = "retailer_name" then row.key else none
    roas := row.roas.join
    conversion_rate := row.conversion_rate.join
    ad_spend := getVal? row "ad_spend" }

/-- The request payload fields consumed by `query_data`. -/
structure Payload where
  query : Option String
  kpi : Option String
  fromDate : Option String
  toDate : Option String
  channels : Option (List String)
  constraints : Constraints
  top_n_campaigns : Option ℕ
  collection : Option String

/-- The response assembled by `query_data`. -/
structure Response where
  query : Option String
  kpi : Option String
  timeFrom : Option String
  timeTo : Option String
  collection : Option String
  total_records_found : ℕ
  filters_applied : QueryFilter
  summary : List AggRow
  suggested_reallocation : List Suggestion
  confidence : ℚ
  deriving DecidableEq, Repr

/-- A record store: collection name to document list (the only
capability the core needs from Mongo). -/
abbrev Store := String → List Rec

/-- The body of the `try` block of `query_data`: parse the bounds,
resolve the collection (which may raise a 400), build the filter,
aggregate, and run the reallocation heuristic. -/
def queryDataInner (store : Store) (p : Payload) : Except HTTPError Response := do
  let dtFrom := parse_iso p.fromDate
  let dtTo := parse_iso p.toDate
  let colName ← get_collection p.collection
  let q : QueryFilter := ⟨buildDateFilter dtFrom dtTo, channelConditions p.channels⟩
  let groupBy := groupByFor p.collection
  let metrics := metricsFor p.collection
  let summary := aggregate_generic q (store colName) groupBy metrics p.top_n_campaigns "ad_sales"
  let suggested := suggest_reallocation (summary.map (aggRowToChRow groupBy)) p.kpi p.constraints
  .ok { query := p.query, kpi := p.kpi, timeFrom := p.fromDate, timeTo := p.toDate
        collection := p.collection, total_records_found := summary.length
        filters_applied := q, summary := summary
        suggested_reallocation := suggested, confidence := 3 / 4 }

/-- Model of the `query_data` handler: the blanket `except Exception`
catches every exception raised inside the body — including the 400
`HTTPException` from `_get_collection` — and re-raises it as a 500 with
the stringified original error as detail. -/
def query_data (store : Store) (p : Payload) : Except HTTPError Response :=
  match queryDataInner store p with
  | .ok r => .ok r
  | .error e => .error ⟨500, toString e.status ++ ": " ++ e.detail⟩

/-- Whether a handler result is a success. -/
def isOkE (r : Except HTTPError Response) : Bool :=
  match r with
  | .ok _ => true
  | .error _ => false


/-- The keys of a scores dict. -/
def dkeys (d : SDict) : List (Option PyV) :=
  d.map (fun p => p.1)

theorem dlookup_nil (k : Option PyV) : dlookup [] k = none := rfl

theorem dlookup_cons (p : Option PyV × ℚ) (d : SDict) (k : Option PyV) :
    dlookup (p :: d) k = if p.1 = k then some p.2 else dlookup d k := by
  by_cases h : p.1 = k <;> simp [dlookup, List.find?, h]

theorem dlookup_dinsert_self (d : SDict) (k : Option PyV) (v : ℚ) :
    dlookup (dinsert d k v) k = some v := by
  induction d with
  | nil => simp [dinsert, dlookup_cons]
  | cons p d ih =>
      by_cases h : p.1 = k
      · simp [dinsert, h, dlookup_cons]
      · simp [dinsert, h, dlookup_cons, ih]

theorem dlookup_dinsert_ne (d : SDict) (k k' : Option PyV) (v : ℚ) (h : k' ≠ k) :
    dlookup (dinsert d k v) k' = dlookup d k' := by
  induction d with
  | nil =>
      show dlookup [(k, v)] k' = dlookup [] k'
      rw [dlookup_cons, if_neg (Ne.symm h)]
  | cons p d ih =>
      by_cases hp : p.1 = k
      · rw [dinsert, if_pos hp, dlookup_cons, dlookup_cons]
        simp only
        rw [if_neg (fun hc => h hc.symm), if_neg (by rw [hp]; exact fun hc => h hc.symm)]
      · rw [dinsert, if_neg hp, dlookup_cons, dlookup_cons, ih]

theorem dvaluesSum_nil : dvaluesSum [] = 0 := rfl

theorem dvaluesSum_cons (p : Option PyV × ℚ) (d : SDict) :
    dvaluesSum (p :: d) = p.2 + dvaluesSum d := by
  simp [dvaluesSum]

theorem dvaluesSum_dinsert_absent (d : SDict) (k : Option PyV) (v : ℚ)
    (h : dlookup d k = none) :
    dvaluesSum (dinsert d k v) = dvaluesSum d + v := by
  induction d with
  | nil => simp [dinsert, dvaluesSum]
  | cons p d ih =>
      rw [dlookup_cons] at h
      by_cases hp : p.1 = k
      · rw [if_pos hp] at h
        cases h
      · rw [if_neg hp] at h
        rw [dinsert, if_neg hp, dvaluesSum_cons, dvaluesSum_cons, ih h]
        ring

theorem dvaluesSum_dinsert_present (d : SDict) (k : Option PyV) (v w : ℚ)
    (h : dlookup d k = some w) :
    dvaluesSum (dinsert d k v) = dvaluesSum d - w + v := by
  induction d with
  | nil => cases h
  | cons p d ih =>
      rw [dlookup_cons] at h
      by_cases hp : p.1 = k
      · rw [if_pos hp] at h
        injection h with h
        rw [dinsert, if_pos hp, dvaluesSum_cons, dvaluesSum_cons, ← h]
        ring
      · rw [if_neg hp] at h
        rw [dinsert, if_neg hp, dvaluesSum_cons, dvaluesSum_cons, ih h]
        ring

theorem mem_values_dinsert (d : SDict) (k : Option PyV) (v w : ℚ)
    (h : w ∈ (dinsert d k v).map (fun p => p.2)) :
    w ∈ d.map (fun p => p.2) ∨ w = v := by
  induction d with
  | nil =>
      simp [dinsert] at h
      exact Or.inr h
  | cons p d ih =>
      by_cases hp : p.1 = k
      · rw [dinsert, if_pos hp] at h
        simp at h ⊢
        tauto
      · rw [dinsert, if_neg hp] at h
        simp at h ⊢
        rcases h with h | h
        · tauto
        · rcases ih (by simpa using h) with h' | h'
          · simp at h'
            tauto
          · tauto

theorem dinsert_ne_nil (d : SDict) (k : Option PyV) (v : ℚ) :
    dinsert d k v ≠ [] := by
  cases d with
  | nil => simp [dinsert]
  | cons p d =>
      rw [dinsert]
      by_cases hp : p.1 = k <;> simp [hp]

theorem buildScores_append (m : Option ℚ) (rows : List ChRow) (r : ChRow) :
    buildScores m (rows ++ [r])
      = dinsert (buildScores m rows) (resolveKey r) (padScore m r) := by
  simp [buildScores, List.foldl_append]

theorem dlookup_buildScores (m : Option ℚ) (rows : List ChRow) (k : Option PyV) :
    dlookup (buildScores m rows) k
      = (rows.reverse.find? (fun r => resolveKey r = k)).map (padScore m) := by
  induction rows using List.reverseRecOn with
  | nil => rfl
  | append_singleton l r ih =>
      rw [buildScores_append, List.reverse_append]
      by_cases hk : resolveKey r = k
      · rw [hk, dlookup_dinsert_self]
        simp [List.find?, hk]
      · rw [dlookup_dinsert_ne _ _ _ _ (fun hc => hk hc.symm), ih]
        simp [List.find?, hk]

theorem padScore_pos (m : Option ℚ) (ch : ChRow) : 0 < padScore m ch := by
  have h1 : (0 : ℚ) ≤ max (rawScore m ch) 0 := le_max_right _ _
  have h2 : (0 : ℚ) < 1e-6 := by norm_num
  unfold padScore
  linarith

theorem dlookup_mem_values (d : SDict) (k : Option PyV) (v : ℚ)
    (h : dlookup d k = some v) : v ∈ d.map (fun p => p.2) := by
  induction d with
  | nil => cases h
  | cons p d ih =>
      rw [dlookup_cons] at h
      by_cases hp : p.1 = k
      · rw [if_pos hp] at h
        injection h with h
        simp [h]
      · rw [if_neg hp] at h
        simp [ih h]

theorem buildScores_values_pos (m : Option ℚ) (rows : List ChRow) (v : ℚ)
    (h : v ∈ (buildScores m rows).map (fun p => p.2)) : 0 < v := by
  induction rows using List.reverseRecOn with
  | nil => cases h
  | append_singleton l r ih =>
      rw [buildScores_append] at h
      rcases mem_values_dinsert _ _ _ _ h with h' | h'
      · exact ih h'
      · rw [h']
        exact padScore_pos m r

theorem buildScores_ne_nil (m : Option ℚ) (rows : List ChRow) (h : rows ≠ []) :
    buildScores m rows ≠ [] := by
  induction rows using List.reverseRecOn with
  | nil => exact absurd rfl h
  | append_singleton l r _ =>
      rw [buildScores_append]
      exact dinsert_ne_nil _ _ _

theorem dvaluesSum_buildScores_pos (m : Option ℚ) (rows : List ChRow)
    (h : rows ≠ []) : 0 < dvaluesSum (buildScores m rows) := by
  unfold dvaluesSum
  apply List.sum_pos
  · exact fun v hv => buildScores_values_pos m rows v hv
  · simp only [ne_eq, List.map_eq_nil_iff]
    exact buildScores_ne_nil m rows h

theorem totalScore_eq_sum (m : Option ℚ) (rows : List ChRow) (h : rows ≠ []) :
    totalScore m rows = dvaluesSum (buildScores m rows) := by
  unfold totalScore
  rw [if_neg (ne_of_gt (dvaluesSum_buildScores_pos m rows h))]

theorem totalScore_pos (m : Option ℚ) (rows : List ChRow) (h : rows ≠ []) :
    0 < totalScore m rows := by
  rw [totalScore_eq_sum m rows h]
  exact dvaluesSum_buildScores_pos m rows h

theorem scoreUsed_pos (m : Option ℚ) (rows : List ChRow) (k : Option PyV) :
    0 < (dlookup (buildScores m rows) k).getD 1e-6 := by
  cases h : dlookup (buildScores m rows) k with
  | none => norm_num
  | some v =>
      simpa using buildScores_values_pos m rows v (dlookup_mem_values _ _ _ h)

theorem find?_reverse_self (rows : List ChRow) (ch : ChRow)
    (hn : (rows.map resolveKey).Nodup) (hch : ch ∈ rows) :
    rows.reverse.find? (fun r => resolveKey r = resolveKey ch) = some ch := by
  induction rows using List.reverseRecOn with
  | nil => cases hch
  | append_singleton l r ih =>
      rw [List.map_append, List.nodup_append] at hn
      rw [List.reverse_append, List.reverse_singleton, List.singleton_append]
      rcases List.mem_append.mp hch with hch' | hch'
      · have hne : resolveKey r ≠ resolveKey ch := fun hc =>
          hn.2.2 (List.mem_map_of_mem _ hch') (by simp [hc.symm])
        rw [List.find?_cons_of_neg _ (by simpa using hne)]
        exact ih hn.1 hch'
      · have : ch = r := by simpa using hch'
        subst this
        rw [List.find?_cons_of_pos _ (by simp)]

theorem dlookup_buildScores_nodup (m : Option ℚ) (rows : List ChRow) (ch : ChRow)
    (hn : (rows.map resolveKey).Nodup) (hch : ch ∈ rows) :
    dlookup (buildScores m rows) (resolveKey ch) = some (padScore m ch) := by
  rw [dlookup_buildScores, find?_reverse_self rows ch hn hch]
  rfl

theorem dvaluesSum_buildScores_nodup (m : Option ℚ) (rows : List ChRow)
    (hn : (rows.map resolveKey).Nodup) :
    dvaluesSum (buildScores m rows) = (rows.map (padScore m)).sum := by
  induction rows using List.reverseRecOn with
  | nil => rfl
  | append_singleton l r ih =>
      rw [List.map_append, List.nodup_append] at hn
      have h0 : l.reverse.find? (fun x => resolveKey x = resolveKey r) = none := by
        rw [List.find?_eq_none]
        intro x hx
        simp only [decide_eq_true_eq]
        exact fun hc =>
          hn.2.2 (List.mem_map_of_mem _ (List.mem_reverse.mp hx)) (by simp [hc.symm])
      rw [buildScores_append, dvaluesSum_dinsert_absent, ih hn.1]
      · simp
      · rw [dlookup_buildScores, h0]
        rfl

/-- C3: in the reallocation engine, `target_total` equals `current_total`
when no max-spend constraint is given, equals `max_spend` when
`max_spend > current_total`, and equals `max_spend` when
`0 < max_spend ≤ current_total` (the non-negative `current_total`
hypothesis reflects that spends are sums of non-negative amounts). -/
theorem C3_target_total (current : ℚ) (hc : 0 ≤ current) :
    targetTotal current none = current
    ∧ (∀ m : ℚ, current < m → targetTotal current (some m) = m)
    ∧ (∀ m : ℚ, 0 < m → m ≤ current → targetTotal current (some m) = m) := by
  refine ⟨rfl, ?_, ?_⟩
  · intro m hm
    have hm0 : m ≠ 0 := by
      intro h
      rw [h] at hm
      exact absurd hc (not_le.mpr hm)
    simp [targetTotal, pyTruthyQ, hm0, hm]
  · intro m hm0 hmc
    have hne : m ≠ 0 := ne_of_gt hm0
    have hnlt : ¬ (m > current) := not_lt.mpr hmc
    simp [targetTotal, pyTruthyQ, hne, hnlt, min_eq_right hmc]

/-- Witness for C3 at concrete inputs. -/
theorem C3_witness :
    (0 : ℚ) ≤ 10 ∧ targetTotal 10 none = 10
    ∧ targetTotal 10 (some 20) = 20 ∧ targetTotal 10 (some 5) = 5 :=
  ⟨by norm_num, (C3_target_total 10 (by norm_num)).1,
   (C3_target_total 10 (by norm_num)).2.1 20 (by norm_num),
   (C3_target_total 10 (by norm_num)).2.2 5 (by norm_num) (by norm_num)⟩

/-- C6: for every non-empty input list, every epsilon-padded score is
strictly positive, the sum of the stored scores is strictly positive,
and the normalization divisor is exactly that sum (the `or 1.0`
fallback never fires), so dividing by it never faults. -/
theorem C6_scores_positive (m : Option ℚ) (rows : List ChRow) (h : rows ≠ []) :
    (∀ ch ∈ rows, 0 < padScore m ch)
    ∧ 0 < dvaluesSum (buildScores m rows)
    ∧ totalScore m rows = dvaluesSum (buildScores m rows) :=
  ⟨fun ch _ => padScore_pos m ch, dvaluesSum_buildScores_pos m rows h,
   totalScore_eq_sum m rows h⟩

/-- A row with zero spend, zero ROAS and zero conversion rate. -/
def zeroRow : ChRow := ⟨none, none, none, some 0, some 0, some 0⟩

/-- Witness for C6 on an all-zero row. -/
theorem C6_witness :
    (∀ ch ∈ [zeroRow], 0 < padScore none ch)
    ∧ 0 < dvaluesSum (buildScores none [zeroRow])
    ∧ totalScore none [zeroRow] = dvaluesSum (buildScores none [zeroRow]) :=
  C6_scores_positive none [zeroRow] (by simp)

/-- A row with an absent channel, a present-but-zero retailer id and a
retailer name. -/
def exC9 : ChRow := ⟨none, some (.num 0), some (.str "acme"), none, none, some 10⟩

/-- C9 counterexample: the claim says a present `retailer_id = 0` wins
over the later `retailer_name` because it is non-absent; on this row the
engine keys the suggestion by the retailer name instead, because the
`or`-chain skips falsy values. -/
theorem C9_counterexample :
    exC9.channel = none ∧ exC9.retailer_id = some (PyV.num 0)
    ∧ resolveKey exC9 ≠ some (PyV.num 0)
    ∧ ((suggest_reallocation [exC9] none ⟨none, none⟩).head?.map
        (fun s => s.channel)) = some (some (PyV.str "acme")) := by
  refine ⟨rfl, rfl, by decide, by decide⟩

/-- C9 amended: the identifying key is the first truthy value among
channel, retailer id and retailer name — a present but falsy value (an
empty-string channel or a zero retailer id) is skipped exactly like an
absent one, and when the first two are not truthy the retailer name is
used whatever it is. -/
theorem C9_amended (ch : ChRow) :
    (pyTruthy ch.channel = true → resolveKey ch = ch.channel)
    ∧ (pyTruthy ch.channel = false → pyTruthy ch.retailer_id = true →
        resolveKey ch = ch.retailer_id)
    ∧ (pyTruthy ch.channel = false → pyTruthy ch.retailer_id = false →
        resolveKey ch = ch.retailer_name) := by
  refine ⟨fun h => ?_, fun h h' => ?_, fun h h' => ?_⟩ <;>
    simp [resolveKey, pyOr, h]
  · simp [h']
  · simp [h']

/-- Witness for C9 amended on the zero-retailer-id row. -/
theorem C9_witness :
    pyTruthy exC9.channel = false ∧ pyTruthy exC9.retailer_id = false
    ∧ resolveKey exC9 = some (PyV.str "acme") :=
  ⟨by decide, by decide, ((C9_amended exC9).2.2 (by decide) (by decide)).trans rfl⟩

/-- C8: the date parser tries the three fixed formats in order and then
the generic ISO parse, accepting the first success; when everything
fails the bound is absent (`none`), never an error; in particular the
unparseable start bound `"not-a-date"` yields a filter with no lower
date bound while the end bound still applies. -/
theorem C8_date_parsing :
    (∀ s : String, parse_iso (some s)
        = if s = "" then none
          else
            match parseFmtDate s with
            | some d => some d
            | none =>
                match parseFmtDateTime s with
                | some d => some d
                | none =>
                    match parseFmtDateTimeFrac s with
                    | some d => some d
                    | none => parseFromIso s)
    ∧ parse_iso (some "not-a-date") = none
    ∧ buildDateFilter (parse_iso (some "not-a-date")) (parse_iso (some "2025-01-02"))
        = some ⟨none, some ⟨2025, 1, 2, 23, 59, 59, 999999⟩⟩ := by
  refine ⟨?_, by decide, by decide⟩
  intro s
  by_cases hs : s = ""
  · simp [parse_iso, hs]
  · simp only [parse_iso, hs, if_false, tryFormats, formatParsers]
    cases h1 : parseFmtDate s with
    | some d => rfl
    | none =>
        cases h2 : parseFmtDateTime s with
        | some d => rfl
        | none =>
            cases h3 : parseFmtDateTimeFrac s with
            | some d => rfl
            | none => rfl

theorem currentTotal_nonneg (rows : List ChRow)
    (hsp : ∀ ch ∈ rows, 0 ≤ (ch.ad_spend).getD 0) : 0 ≤ currentTotal rows := by
  unfold currentTotal
  apply List.sum_nonneg
  intro x hx
  obtain ⟨ch, hch, rfl⟩ := List.mem_map.mp hx
  exact hsp ch hch

theorem targetTotal_nonneg (current : ℚ) (maxS : Option ℚ) (hc : 0 ≤ current)
    (hms : ∀ m : ℚ, maxS = some m → 0 ≤ m) : 0 ≤ targetTotal current maxS := by
  cases maxS with
  | none => exact hc
  | some m =>
      have hm : 0 ≤ m := hms m rfl
      by_cases hm0 : m = 0
      · simp [targetTotal, pyTruthyQ, hm0, hc]
      · by_cases hgt : m > current
        · simp [targetTotal, pyTruthyQ, hm0, hgt, hm]
        · simp [targetTotal, pyTruthyQ, hm0, hgt, le_min hc hm]

theorem rawShare_nonneg (rows : List ChRow) (cons : Constraints) (ch : ChRow)
    (hne : rows ≠ [])
    (ht : 0 ≤ targetTotal (currentTotal rows) cons.max_spend) :
    0 ≤ rawShare rows cons ch := by
  unfold rawShare
  exact mul_nonneg
    (div_nonneg (le_of_lt (scoreUsed_pos cons.min_roas rows (resolveKey ch)))
      (le_of_lt (totalScore_pos cons.min_roas rows hne))) ht

/-- C1 (amended): for rows with non-negative spends and a non-negative
max-spend constraint, a row with positive current spend has its share —
before the final two-decimal presentation rounding — clamped into
`[0.5 × current, 1.5 × current]`, and a row with zero current spend gets
its raw proportional share unclamped (no division by the zero spend
occurs anywhere); the emitted `suggested` field is exactly the
two-decimal rounding of that value. -/
theorem C1_suggested_bounds (rows : List ChRow) (kpi : Option String)
    (minR maxS : Option ℚ)
    (hsp : ∀ ch ∈ rows, 0 ≤ (ch.ad_spend).getD 0)
    (hms : ∀ m : ℚ, maxS = some m → 0 ≤ m)
    (ch : ChRow) (hch : ch ∈ rows) :
    (0 < (ch.ad_spend).getD 0 →
      (ch.ad_spend).getD 0 * 0.5 ≤ clampedShare rows ⟨minR, maxS⟩ ch
      ∧ clampedShare rows ⟨minR, maxS⟩ ch ≤ (ch.ad_spend).getD 0 * 1.5)
    ∧ ((ch.ad_spend).getD 0 = 0 →
      clampedShare rows ⟨minR, maxS⟩ ch = rawShare rows ⟨minR, maxS⟩ ch)
    ∧ suggestOne rows ⟨minR, maxS⟩ ch ∈ suggest_reallocation rows kpi ⟨minR, maxS⟩
    ∧ (suggestOne rows ⟨minR, maxS⟩ ch).suggested
        = round2 (clampedShare rows ⟨minR, maxS⟩ ch) := by
  have hne : rows ≠ [] := List.ne_nil_of_mem hch
  refine ⟨?_, ?_, List.mem_map_of_mem _ hch, rfl⟩
  · intro hcur
    simp only [clampedShare]
    rw [if_pos hcur]
    constructor
    · exact le_max_left _ _
    · apply max_le
      · nlinarith [hcur]
      · exact min_le_right _ _
  · intro hcur
    have hs : 0 ≤ rawShare rows ⟨minR, maxS⟩ ch := by
      apply rawShare_nonneg rows ⟨minR, maxS⟩ ch hne
      exact targetTotal_nonneg _ _ (currentTotal_nonneg rows hsp) hms
    simp only [clampedShare, hcur]
    norm_num
    exact hs

/-- A high-ROAS row with a tiny current spend. -/
def r1ex : ChRow := ⟨some (.str "a"), none, none, some 1000, none, some (11 / 1000)⟩

/-- A zero-score row with a large current spend. -/
def r2ex : ChRow := ⟨some (.str "b"), none, none, none, none, some 100⟩

theorem resolveKey_r1ex : resolveKey r1ex = some (PyV.str "a") := by
  simp [resolveKey, pyOr, pyTruthy, r1ex]

theorem resolveKey_r2ex : resolveKey r2ex = some (PyV.str "b") := by
  simp [resolveKey, pyOr, pyTruthy, r2ex]

theorem padScore_r1ex : padScore none r1ex = 700000001 / 1000000 := by
  rw [padScore, rawScore]
  norm_num [orZero, pyTruthyQ, r1ex]

theorem padScore_r2ex : padScore none r2ex = 1 / 1000000 := by
  rw [padScore, rawScore]
  norm_num [orZero, pyTruthyQ, r2ex]

theorem buildScores_ex : buildScores none [r1ex, r2ex]
    = [(some (PyV.str "a"), 700000001 / 1000000), (some (PyV.str "b"), 1 / 1000000)] := by
  rw [buildScores]
  simp only [List.foldl_cons, List.foldl_nil, resolveKey_r1ex, resolveKey_r2ex,
    padScore_r1ex, padScore_r2ex]
  simp [dinsert]

theorem clampedShare_r1ex :
    clampedShare [r1ex, r2ex] ⟨none, none⟩ r1ex = 33 / 2000 := by
  have hraw : rawShare [r1ex, r2ex] ⟨none, none⟩ r1ex
      = 700000001 / 700000002 * (100011 / 1000) := by
    rw [rawShare]
    simp only [resolveKey_r1ex, buildScores_ex]
    have h1 : dlookup [(some (PyV.str "a"), (700000001 : ℚ) / 1000000),
        (some (PyV.str "b"), 1 / 1000000)] (some (PyV.str "a"))
        = some (700000001 / 1000000) := by
      simp [dlookup, List.find?]
    have h2 : totalScore none [r1ex, r2ex] = 700000002 / 1000000 := by
      rw [totalScore, buildScores_ex]
      norm_num [dvaluesSum]
    have h3 : currentTotal [r1ex, r2ex] = 100011 / 1000 := by
      norm_num [currentTotal, r1ex, r2ex]
    rw [h1, h2, h3]
    have h4 : targetTotal (100011 / 1000) none = 100011 / 1000 := by
      simp [targetTotal, pyTruthyQ]
    rw [h4]
    norm_num
  have hup : (33 : ℚ) / 2000 ≤ 700000001 / 700000002 * (100011 / 1000) := by
    norm_num
  have hcur : (r1ex.ad_spend).getD 0 = 11 / 1000 := rfl
  simp only [clampedShare, hcur, hraw]
  rw [if_pos (by norm_num : (11 : ℚ) / 1000 > 0)]
  rw [show (11 : ℚ) / 1000 * 1.5 = 33 / 2000 by norm_num,
      show (11 : ℚ) / 1000 * 0.5 = 11 / 2000 by norm_num]
  rw [min_eq_right hup, max_eq_right (by norm_num : (11 : ℚ) / 2000 ≤ 33 / 2000)]

/-- C1 counterexample: on a row with current spend `0.011 > 0` the
emitted suggestion is `0.02`, which lies outside the claimed closed
interval `[0.5 × 0.011, 1.5 × 0.011]` — the two-decimal rounding of the
clamped share escapes the clamp interval. -/
theorem C1_counterexample :
    r1ex.ad_spend = some (11 / 1000) ∧ (0 : ℚ) < 11 / 1000
    ∧ ((suggest_reallocation [r1ex, r2ex] none ⟨none, none⟩).head?.map
        (fun s => s.suggested)) = some (1 / 50)
    ∧ ¬ ((1 : ℚ) / 50 ≤ 1.5 * (11 / 1000)) := by
  refine ⟨rfl, by norm_num, ?_, by norm_num⟩
  have hr2 : round2 (33 / 2000) = 1 / 50 := by
    rw [round2, roundHalfEven]
    have hfl : ⌊(100 : ℚ) * (33 / 2000)⌋ = 1 := by norm_num
    rw [hfl]
    norm_num
  simp only [suggest_reallocation, List.map_cons, List.head?, Option.map,
    suggestOne, clampedShare_r1ex, hr2]

/-- Witness for C1 amended on the positive-spend row of the
counterexample input. -/
theorem C1_witness :
    (0 : ℚ) < (r1ex.ad_spend).getD 0
    ∧ (r1ex.ad_spend).getD 0 * 0.5 ≤ clampedShare [r1ex, r2ex] ⟨none, none⟩ r1ex
    ∧ clampedShare [r1ex, r2ex] ⟨none, none⟩ r1ex ≤ (r1ex.ad_spend).getD 0 * 1.5 := by
  have h := (C1_suggested_bounds [r1ex, r2ex] none none none
    (by intro ch hch; fin_cases hch <;> norm_num [r1ex, r2ex])
    (fun m hm => nomatch hm) r1ex (List.mem_cons_self _ _)).1
    (by norm_num [r1ex])
  exact ⟨by norm_num [r1ex], h.1, h.2⟩

theorem mem_insertDesc (f : AggRow → ℚ) (x row : AggRow) (l : List AggRow) :
    row ∈ insertDesc f x l ↔ row = x ∨ row ∈ l := by
  induction l with
  | nil => simp [insertDesc]
  | cons y ys ih =>
      rw [insertDesc]
      by_cases h : f y ≤ f x
      · simp [h]
      · simp [h, ih]
        tauto

theorem mem_sortByDesc (f : AggRow → ℚ) (l : List AggRow) (row : AggRow) :
    row ∈ sortByDesc f l ↔ row ∈ l := by
  induction l with
  | nil => simp [sortByDesc]
  | cons y ys ih =>
      rw [sortByDesc, List.foldr_cons]
      rw [mem_insertDesc]
      rw [show List.foldr (insertDesc f) [] ys = sortByDesc f ys from rfl, ih]
      simp

theorem mem_aggregate (filt : QueryFilter) (recs : List Rec) (groupBy : String)
    (metrics : List String) (topn : Option ℕ) (sortBy : String) (row : AggRow)
    (h : row ∈ aggregate_generic filt recs groupBy metrics topn sortBy) :
    ∃ k, row = mkAggRow metrics k
        (sumFor (recs.filter (matchesFilter filt)) groupBy k) := by
  unfold aggregate_generic at h
  have h' : row ∈ sortByDesc (fun r => (getVal? r sortBy).getD 0)
      (((recs.filter (matchesFilter filt)).map (fun r => r groupBy)).dedup.map
        (fun k => mkAggRow metrics k (sumFor (recs.filter (matchesFilter filt)) groupBy k))) := by
    cases topn with
    | none => exact h
    | some n =>
        cases n with
        | zero => exact h
        | succ n => exact List.take_subset _ _ h
  rw [mem_sortByDesc] at h'
  obtain ⟨k, _, rfl⟩ := List.mem_map.mp h'
  exact ⟨k, rfl⟩

theorem find?_map_pair (metrics : List String) (s : String → ℚ) (m : String) :
    ((metrics.map (fun m' => (m', s m'))).find? (fun p => p.1 = m))
      = if m ∈ metrics then some (m, s m) else none := by
  induction metrics with
  | nil => simp
  | cons a t ih =>
      by_cases ha : a = m
      · subst ha
        simp [List.find?]
      · rw [List.map_cons, List.find?_cons_of_neg _ (by simpa using ha), ih]
        simp [Ne.symm ha, ha]

theorem getVal?_mkAggRow (metrics : List String) (k : Option PyV) (s : String → ℚ)
    (m : String) :
    getVal? (mkAggRow metrics k s) m = if m ∈ metrics then some (s m) else none := by
  rw [getVal?, mkAggRow]
  simp only [find?_map_pair]
  by_cases hm : m ∈ metrics <;> simp [hm]

theorem sumFor_nonneg (matched : List Rec) (groupBy : String) (k : Option PyV)
    (m : String) (hnn : ∀ r ∈ matched, 0 ≤ numOf (r m)) :
    0 ≤ sumFor matched groupBy k m := by
  unfold sumFor
  apply List.sum_nonneg
  intro x hx
  obtain ⟨r, hr, rfl⟩ := List.mem_map.mp hx
  exact hnn r (List.mem_filter.mp hr).1

/-- Specification of one derived-ratio slot of a summary row: it is
present exactly when both source metrics were requested, it is null when
the summed denominator is zero, and otherwise it is the non-negative
finite quotient of the two sums. -/
def DerivedFieldOK (metrics : List String) (row : AggRow) (rv : Option (Option ℚ))
    (numName denName : String) : Prop :=
  (rv ≠ none ↔ numName ∈ metrics ∧ denName ∈ metrics)
  ∧ ∀ num den : ℚ, getVal? row numName = some num → getVal? row denName = some den →
      0 ≤ den →
      (den = 0 → rv = some none)
      ∧ (den ≠ 0 → rv = some (some (num / den)) ∧ (0 ≤ num → 0 ≤ num / den))

theorem DerivedFieldOK_mkAggRow (metrics : List String) (k : Option PyV)
    (s : String → ℚ) (numName denName : String) :
    DerivedFieldOK metrics (mkAggRow metrics k s)
      (if numName ∈ metrics ∧ denName ∈ metrics then
        some (divOrNull (s numName) (s denName)) else none) numName denName := by
  constructor
  · by_cases hm : numName ∈ metrics ∧ denName ∈ metrics <;> simp [hm]
  · intro num den hnum hden hdnn
    rw [getVal?_mkAggRow] at hnum hden
    by_cases h1 : numName ∈ metrics
    · by_cases h2 : denName ∈ metrics
      · rw [if_pos h1] at hnum
        rw [if_pos h2] at hden
        injection hnum with hnum
        injection hden with hden
        rw [if_pos ⟨h1, h2⟩]
        constructor
        · intro hz
          rw [divOrNull, if_neg]
          rw [hden, hz]
          exact lt_irrefl 0
        · intro hz
          have hpos : 0 < s denName := by
            rw [hden]
            exact lt_of_le_of_ne hdnn (Ne.symm hz)
          rw [divOrNull, if_pos hpos, hnum, hden]
          exact ⟨rfl, fun hn => div_nonneg hn hdnn⟩
      · rw [if_neg h2] at hden
        cases hden
    · rw [if_neg h1] at hnum
      cases hnum

/-- The six metric names whose per-record values the ratio analysis
reads. -/
def relevantMetricNames : List String :=
  ["impressions", "clicks", "ad_spend", "ad_sales", "ad_units", "orders"]

/-- C2: every row the aggregator returns satisfies, for each of the four
derived ratios (with the numerator/denominator source metrics the code
uses, `conversion_rate` reading an `orders` metric): the slot is present
iff both source metrics were requested, it is null when the denominator
sums to zero, and otherwise it is the finite non-negative quotient of
the two sums. Records are assumed to carry non-negative metric values,
as the data model states. -/
theorem C2_derived_ratios (filt : QueryFilter) (recs : List Rec) (groupBy : String)
    (metrics : List String) (topn : Option ℕ) (sortBy : String)
    (hnn : ∀ r ∈ recs, ∀ m ∈ relevantMetricNames, 0 ≤ numOf (r m)) :
    ∀ row ∈ aggregate_generic filt recs groupBy metrics topn sortBy,
      (DerivedFieldOK metrics row row.roas "ad_sales" "ad_spend"
        ∧ DerivedFieldOK metrics row row.ctr "clicks" "impressions"
        ∧ DerivedFieldOK metrics row row.cpc "ad_spend" "clicks"
        ∧ DerivedFieldOK metrics row row.conversion_rate "orders" "clicks")
      ∧ (∀ m ∈ relevantMetricNames, ∀ v : ℚ, getVal? row m = some v → 0 ≤ v) := by
  intro row hrow
  obtain ⟨k, rfl⟩ := mem_aggregate filt recs groupBy metrics topn sortBy row hrow
  constructor
  · exact ⟨DerivedFieldOK_mkAggRow metrics k _ "ad_sales" "ad_spend",
      DerivedFieldOK_mkAggRow metrics k _ "clicks" "impressions",
      DerivedFieldOK_mkAggRow metrics k _ "ad_spend" "clicks",
      DerivedFieldOK_mkAggRow metrics k _ "orders" "clicks"⟩
  · intro m hm v hv
    rw [getVal?_mkAggRow] at hv
    by_cases h1 : m ∈ metrics
    · rw [if_pos h1] at hv
      injection hv with hv
      rw [← hv]
      exact sumFor_nonneg _ groupBy k m
        (fun r hr => hnn r (List.mem_filter.mp hr).1 m hm)
    · rw [if_neg h1] at hv
      cases hv

/-- A record with spend 4 and sales 8 for retailer 7. -/
def rec0 : Rec := fun m =>
  if m = "retailer_id" then some (.num 7)
  else if m = "ad_spend" then some (.num 4)
  else if m = "ad_sales" then some (.num 8) else none

/-- The empty query filter (no date bounds, no channel conditions). -/
def emptyFilter : QueryFilter := ⟨none, []⟩

/-- The five metrics every branch of `query_data` requests. -/
def fiveMetrics : List String :=
  ["impressions", "clicks", "ad_spend", "ad_sales", "ad_units"]

theorem filter_rec0 : [rec0].filter (matchesFilter emptyFilter) = [rec0] := by
  simp [matchesFilter, matchDate, emptyFilter]

/-- The single summary row produced from `rec0`. -/
def row0 : AggRow :=
  mkAggRow fiveMetrics (some (.num 7)) (sumFor [rec0] "retailer_id" (some (.num 7)))

theorem aggregate_rec0 :
    aggregate_generic emptyFilter [rec0] "retailer_id" fiveMetrics (some 10) "ad_sales"
      = [row0] := by
  simp only [aggregate_generic, filter_rec0]
  have hk : rec0 "retailer_id" = some (PyV.num 7) := by simp [rec0]
  simp [hk, sortByDesc, insertDesc, row0]

theorem sum_rec0_sales :
    sumFor [rec0] "retailer_id" (some (PyV.num 7)) "ad_sales" = 8 := by
  have hk : rec0 "retailer_id" = some (PyV.num 7) := by simp [rec0]
  simp [sumFor, hk, rec0, numOf]

theorem sum_rec0_spend :
    sumFor [rec0] "retailer_id" (some (PyV.num 7)) "ad_spend" = 4 := by
  have hk : rec0 "retailer_id" = some (PyV.num 7) := by simp [rec0]
  simp [sumFor, hk, rec0, numOf]

/-- Witness for C2 on a one-record store: the returned row carries
`roas = 8 / 4 = 2` and no `conversion_rate` slot. -/
theorem C2_witness :
    row0 ∈ aggregate_generic emptyFilter [rec0] "retailer_id" fiveMetrics
      (some 10) "ad_sales"
    ∧ row0.roas = some (some 2) ∧ row0.conversion_rate = none := by
  have hmem : row0 ∈ aggregate_generic emptyFilter [rec0] "retailer_id" fiveMetrics
      (some 10) "ad_sales" := by
    rw [aggregate_rec0]
    exact List.mem_singleton.mpr rfl
  have hnn : ∀ r ∈ [rec0], ∀ m ∈ relevantMetricNames, 0 ≤ numOf (r m) := by
    intro r hr m hm
    fin_cases hr
    fin_cases hm <;> simp [rec0, numOf]
  have h := C2_derived_ratios emptyFilter [rec0] "retailer_id" fiveMetrics
    (some 10) "ad_sales" hnn row0 hmem
  have hsales : getVal? row0 "ad_sales" = some 8 := by
    rw [row0, getVal?_mkAggRow, if_pos (by simp [fiveMetrics]), sum_rec0_sales]
  have hspend : getVal? row0 "ad_spend" = some 4 := by
    rw [row0, getVal?_mkAggRow, if_pos (by simp [fiveMetrics]), sum_rec0_spend]
  have hro := (h.1.1.2 8 4 hsales hspend (by norm_num)).2 (by norm_num)
  refine ⟨hmem, ?_, ?_⟩
  · rw [hro.1]
    norm_num
  · simp [row0, mkAggRow, fiveMetrics]

theorem metricsFor_eq (c : Option String) : metricsFor c = fiveMetrics := by
  unfold metricsFor fiveMetrics
  repeat' split
  all_goals rfl

/-- C4: on every request wired through `query_data`'s collection
dispatch (which always selects the five-metric set with `ad_units` and
`clicks` but never an `orders` metric), every returned summary row lacks
the `conversion_rate` slot entirely — the aggregator only emits it when
an `orders` metric is requested, which never happens. -/
theorem C4_conversion_rate_missing (c : Option String) (filt : QueryFilter)
    (recs : List Rec) (topn : Option ℕ) :
    ∀ row ∈ aggregate_generic filt recs (groupByFor c) (metricsFor c) topn "ad_sales",
      row.conversion_rate = none := by
  intro row hrow
  obtain ⟨k, rfl⟩ := mem_aggregate _ _ _ _ _ _ row hrow
  rw [metricsFor_eq]
  simp [mkAggRow, fiveMetrics]

/-- A record with 10 clicks and 5 units for retailer 3. -/
def rec1 : Rec := fun m =>
  if m = "retailer_id" then some (.num 3)
  else if m = "clicks" then some (.num 10)
  else if m = "ad_units" then some (.num 5) else none

/-- The single summary row produced from `rec1`. -/
def row1 : AggRow :=
  mkAggRow (metricsFor none) (some (.num 3))
    (sumFor [rec1] "retailer_id" (some (.num 3)))

theorem aggregate_rec1 :
    aggregate_generic emptyFilter [rec1] "retailer_id" (metricsFor none)
      (some 10) "ad_sales" = [row1] := by
  have hf : [rec1].filter (matchesFilter emptyFilter) = [rec1] := by
    simp [matchesFilter, matchDate, emptyFilter]
  simp only [aggregate_generic, hf]
  have hk : rec1 "retailer_id" = some (PyV.num 3) := by simp [rec1]
  simp [hk, sortByDesc, insertDesc, row1]

/-- Witness for C4: a row with positive clicks and units still has no
conversion-rate slot. -/
theorem C4_witness :
    row1 ∈ aggregate_generic emptyFilter [rec1] "retailer_id" (metricsFor none)
      (some 10) "ad_sales"
    ∧ row1.conversion_rate = none
    ∧ getVal? row1 "clicks" = some 10 ∧ getVal? row1 "ad_units" = some 5 := by
  have hmem : row1 ∈ aggregate_generic emptyFilter [rec1] "retailer_id"
      (metricsFor none) (some 10) "ad_sales" := by
    rw [aggregate_rec1]
    exact List.mem_singleton.mpr rfl
  have hk : rec1 "retailer_id" = some (PyV.num 3) := by simp [rec1]
  refine ⟨hmem, C4_conversion_rate_missing none emptyFilter [rec1] (some 10) row1 hmem,
    ?_, ?_⟩
  · rw [row1, getVal?_mkAggRow, if_pos (by rw [metricsFor_eq]; simp [fiveMetrics])]
    simp [sumFor, hk, rec1, numOf]
  · rw [row1, getVal?_mkAggRow, if_pos (by rw [metricsFor_eq]; simp [fiveMetrics])]
    simp [sumFor, hk, rec1, numOf]

/-- A record store with no documents in any collection. -/
def emptyStore : Store := fun _ => []

/-- A minimal payload targeting the given collection. -/
def payloadFor (c : Option String) : Payload :=
  ⟨none, none, none, none, none, ⟨none, none⟩, some 10, c⟩

/-- C5 counterexample: `"budget"` is not one of the four grouping
targets, yet the request is not rejected — the collection table also
registers `budget`, `brand`, `retailer` and `campaign`, and the handler
happily aggregates (with the default retailer grouping). -/
theorem C5_counterexample :
    isOkE (query_data emptyStore (payloadFor (some "budget"))) = true
    ∧ "budget" ∉ ["retailer_daily_spend", "retailer_keywords_daily",
        "retailer_page_type_daily", "retailer_product_daily"] := by
  exact ⟨rfl, by decide⟩

/-- C5 (amended): a request naming a collection outside the eight
registered names is rejected before any aggregation or reallocation
(the result is the same error for every store), but as a 500 server
failure wrapping the stringified internal 400, because the handler's
blanket exception handler swallows the `HTTPException`. -/
theorem C5_unknown_collection (store : Store) (p : Payload) (n : String)
    (hp : p.collection = some n) (hn : n ≠ "") (hmem : n ∉ COLLECTION_NAMES) :
    query_data store p = .error ⟨500, "400: Unknown collection: " ++ n⟩ := by
  have hg : get_collection p.collection
      = .error ⟨400, "Unknown collection: " ++ n⟩ := by
    rw [hp]
    simp only [get_collection]
    rw [if_neg hn, if_neg hmem]
  unfold query_data queryDataInner
  rw [hg]
  show (Except.error ⟨500, toString (400 : ℕ) ++ ": " ++ ("Unknown collection: " ++ n)⟩
      : Except HTTPError Response)
      = Except.error ⟨500, "400: Unknown collection: " ++ n⟩
  rw [show toString (400 : ℕ) = "400" from rfl, String.append_assoc,
    ← String.append_assoc ": " "Unknown collection: " n,
    ← String.append_assoc "400" (": " ++ "Unknown collection: ") n]
  rfl

/-- Witness for C5 amended at a concrete unknown name. -/
theorem C5_witness :
    query_data emptyStore (payloadFor (some "nonexistent"))
      = .error ⟨500, "400: Unknown collection: nonexistent"⟩ := by
  have h := C5_unknown_collection emptyStore (payloadFor (some "nonexistent"))
    "nonexistent" rfl (by decide) (by decide)
  rw [h]
  rfl

theorem frac_share_strict_mono (a b R t : ℚ) (ha : 0 < a) (hab : a < b) (hR : 0 < R)
    (ht : 0 < t) : a / (a + R) * t < b / (b + R) * t := by
  apply mul_lt_mul_of_pos_right _ ht
  rw [div_lt_div_iff₀ (by linarith) (by linarith)]
  nlinarith

theorem padSum_pos (m : Option ℚ) (rows : List ChRow) (h : rows ≠ []) :
    0 < (rows.map (padScore m)).sum := by
  apply List.sum_pos
  · intro x hx
    obtain ⟨ch, _, rfl⟩ := List.mem_map.mp hx
    exact padScore_pos m ch
  · simpa using h

/-- C7: the pre-epsilon score of a row is `0.7 × roas + 0.3 ×
conversion_rate` with missing values read as zero; when a min-ROAS
constraint is set and the row's (non-negative) ROAS is below it the
score is exactly halved; and — all else equal (no other row penalized,
distinct keys, positive base score, another row present, positive
target) — the penalized row's raw proportional share is strictly
smaller than it would be without the constraint. -/
theorem C7_min_roas_penalty :
    (∀ ch : ChRow, rawScore none ch
        = orZero ch.roas * 0.7 + orZero ch.conversion_rate * 0.3)
    ∧ (∀ (mq : ℚ) (ch : ChRow), 0 ≤ orZero ch.roas → orZero ch.roas < mq →
        rawScore (some mq) ch
          = (orZero ch.roas * 0.7 + orZero ch.conversion_rate * 0.3) * 0.5)
    ∧ (∀ (pre post : List ChRow) (ch : ChRow) (mq : ℚ) (maxS : Option ℚ),
        ((pre ++ ch :: post).map resolveKey).Nodup →
        (∀ r ∈ pre ++ post, ¬ orZero r.roas < mq) →
        0 ≤ orZero ch.roas → orZero ch.roas < mq →
        0 < orZero ch.roas * 0.7 + orZero ch.conversion_rate * 0.3 →
        pre ++ post ≠ [] →
        0 < targetTotal (currentTotal (pre ++ ch :: post)) maxS →
        rawShare (pre ++ ch :: post) ⟨some mq, maxS⟩ ch
          < rawShare (pre ++ ch :: post) ⟨none, maxS⟩ ch) := by
  have hbase : ∀ ch : ChRow, rawScore none ch
      = orZero ch.roas * 0.7 + orZero ch.conversion_rate * 0.3 := by
    intro ch
    simp [rawScore, pyTruthyQ]
  have hhalf : ∀ (mq : ℚ) (ch : ChRow), 0 ≤ orZero ch.roas → orZero ch.roas < mq →
      rawScore (some mq) ch
        = (orZero ch.roas * 0.7 + orZero ch.conversion_rate * 0.3) * 0.5 := by
    intro mq ch h0 hlt
    have hm0 : mq ≠ 0 := ne_of_gt (lt_of_le_of_lt h0 hlt)
    simp [rawScore, pyTruthyQ, hm0, hlt]
  refine ⟨hbase, hhalf, ?_⟩
  intro pre post ch mq maxS hn hother h0 hlt hb hne ht
  set rows := pre ++ ch :: post with hrows
  have hchmem : ch ∈ rows := by simp [hrows]
  have hrne : rows ≠ [] := List.ne_nil_of_mem hchmem
  set base := orZero ch.roas * 0.7 + orZero ch.conversion_rate * 0.3 with hbasedef
  have hpadW : padScore (some mq) ch = base * 0.5 + 1e-6 := by
    rw [padScore, hhalf mq ch h0 hlt, ← hbasedef,
      max_eq_left (mul_nonneg (le_of_lt hb) (by norm_num))]
  have hpadO : padScore none ch = base + 1e-6 := by
    rw [padScore, hbase ch, ← hbasedef, max_eq_left (le_of_lt hb)]
  have hpadeq : ∀ r ∈ pre ++ post, padScore (some mq) r = padScore none r := by
    intro r hr
    have hnlt : ¬ orZero r.roas < mq := hother r hr
    rw [padScore, padScore]
    congr 1
    congr 1
    simp [rawScore, pyTruthyQ, hnlt]
  have hsum : ∀ m : Option ℚ, ((pre ++ ch :: post).map (padScore m)).sum
      = padScore m ch
        + ((pre.map (padScore m)).sum + (post.map (padScore m)).sum) := by
    intro m
    simp [List.map_append, List.sum_append]
    ring
  set R := (pre.map (padScore none)).sum + (post.map (padScore none)).sum with hRdef
  have hpre : pre.map (padScore (some mq)) = pre.map (padScore none) :=
    List.map_congr_left (fun r hr => hpadeq r (List.mem_append_left _ hr))
  have hpost : post.map (padScore (some mq)) = post.map (padScore none) :=
    List.map_congr_left (fun r hr => hpadeq r (List.mem_append_right _ hr))
  have hRpos : 0 < R := by
    have := padSum_pos none (pre ++ post) hne
    rw [List.map_append, List.sum_append] at this
    exact this
  have htW : totalScore (some mq) rows = (base * 0.5 + 1e-6) + R := by
    rw [totalScore_eq_sum _ _ hrne, dvaluesSum_buildScores_nodup _ _ hn, hrows,
      hsum, hpre, hpost, hpadW, hRdef]
  have htO : totalScore none rows = (base + 1e-6) + R := by
    rw [totalScore_eq_sum _ _ hrne, dvaluesSum_buildScores_nodup _ _ hn, hrows,
      hsum, hpadO, hRdef]
  have hlW : dlookup (buildScores (some mq) rows) (resolveKey ch)
      = some (padScore (some mq) ch) := dlookup_buildScores_nodup _ _ _ hn hchmem
  have hlO : dlookup (buildScores none rows) (resolveKey ch)
      = some (padScore none ch) := dlookup_buildScores_nodup _ _ _ hn hchmem
  have hshW : rawShare rows ⟨some mq, maxS⟩ ch
      = (base * 0.5 + 1e-6) / ((base * 0.5 + 1e-6) + R)
        * targetTotal (currentTotal rows) maxS := by
    simp only [rawShare, hlW, Option.getD_some, htW, hpadW]
  have hshO : rawShare rows ⟨none, maxS⟩ ch
      = (base + 1e-6) / ((base + 1e-6) + R)
        * targetTotal (currentTotal rows) maxS := by
    simp only [rawShare, hlO, Option.getD_some, htO, hpadO]
  rw [hshW, hshO]
  apply frac_share_strict_mono
  · exact add_pos (mul_pos hb (by norm_num)) (by norm_num)
  · have hlt' : base * 0.5 < base := by
      calc base * 0.5 < base * 1 := mul_lt_mul_of_pos_left (by norm_num) hb
      _ = base := mul_one base
    exact add_lt_add_right hlt' _
  · exact hRpos
  · exact ht

/-- A row with ROAS below the min-ROAS constraint. -/
def chA7 : ChRow := ⟨some (.str "a7"), none, none, some (3 / 2), some (1 / 10), some 100⟩

/-- A row with ROAS above the min-ROAS constraint. -/
def chB7 : ChRow := ⟨some (.str "b7"), none, none, some 3, none, some 50⟩

/-- Witness for C7 on a two-row input with `min_roas = 2`. -/
theorem C7_witness :
    rawShare [chA7, chB7] ⟨some 2, none⟩ chA7
      < rawShare [chA7, chB7] ⟨none, none⟩ chA7 := by
  have h := C7_min_roas_penalty.2.2 [] [chB7] chA7 2 none
    (by simp [resolveKey, pyOr, pyTruthy, chA7, chB7])
    (by intro r hr; fin_cases hr; norm_num [orZero, chB7])
    (by norm_num [orZero, chA7])
    (by norm_num [orZero, chA7])
    (by norm_num [orZero, chA7])
    (by simp)
    (by
      have hc : currentTotal [chA7, chB7] = 150 := by
        norm_num [currentTotal, chA7, chB7]
      rw [show ([] : List ChRow) ++ chA7 :: [chB7] = [chA7, chB7] from rfl, hc]
      norm_num [targetTotal, pyTruthyQ])
  simpa using h

/-- The stored score of the last row resolving to a key (zero when no
row does). -/
def lastScore (m : Option ℚ) (rows : List ChRow) (k : Option PyV) : ℚ :=
  ((rows.reverse.find? (fun r => resolveKey r = k)).map (padScore m)).getD 0

theorem lastScore_append (m : Option ℚ) (l : List ChRow) (r : ChRow) (k : Option PyV) :
    lastScore m (l ++ [r]) k
      = if resolveKey r = k then padScore m r else lastScore m l k := by
  rw [lastScore, lastScore, List.reverse_append]
  by_cases hk : resolveKey r = k
  · simp [List.find?, hk]
  · simp [List.find?, hk]

theorem dvaluesSum_buildScores_finset (m : Option ℚ) (rows : List ChRow) :
    dvaluesSum (buildScores m rows)
      = Finset.sum (rows.map resolveKey).toFinset (lastScore m rows) := by
  induction rows using List.reverseRecOn with
  | nil => rfl
  | append_singleton l r ih =>
      rw [buildScores_append]
      have hkeyset : ((l ++ [r]).map resolveKey).toFinset
          = insert (resolveKey r) (l.map resolveKey).toFinset := by
        rw [List.map_append, List.toFinset_append]
        simp [Finset.union_comm, Finset.insert_eq]
      have hlast_self : lastScore m (l ++ [r]) (resolveKey r) = padScore m r := by
        rw [lastScore_append, if_pos rfl]
      by_cases hmem : resolveKey r ∈ l.map resolveKey
      · obtain ⟨x, hx⟩ : ∃ x, l.reverse.find?
            (fun r' => resolveKey r' = resolveKey r) = some x := by
          have hsome : (l.reverse.find?
              (fun r' => resolveKey r' = resolveKey r)).isSome = true := by
            rw [List.find?_isSome]
            obtain ⟨y, hy, hk⟩ := List.mem_map.mp hmem
            exact ⟨y, List.mem_reverse.mpr hy, by simp [hk]⟩
          exact Option.isSome_iff_exists.mp hsome
        have hlook : dlookup (buildScores m l) (resolveKey r)
            = some (padScore m x) := by
          rw [dlookup_buildScores, hx]
          rfl
        have hlast : lastScore m l (resolveKey r) = padScore m x := by
          rw [lastScore, hx]
          rfl
        rw [dvaluesSum_dinsert_present _ _ _ _ hlook, ih, hkeyset,
          Finset.insert_eq_self.mpr (List.mem_toFinset.mpr hmem)]
        have hS : ∀ k ∈ ((l.map resolveKey).toFinset).erase (resolveKey r),
            lastScore m (l ++ [r]) k = lastScore m l k := by
          intro k hk
          rw [lastScore_append,
            if_neg (fun hc => (Finset.mem_erase.mp hk).1 hc.symm)]
        have h1 := Finset.sum_erase_add (l.map resolveKey).toFinset
          (lastScore m (l ++ [r])) (List.mem_toFinset.mpr hmem)
        have h2 := Finset.sum_erase_add (l.map resolveKey).toFinset
          (lastScore m l) (List.mem_toFinset.mpr hmem)
        have h3 : Finset.sum (((l.map resolveKey).toFinset).erase (resolveKey r))
              (lastScore m (l ++ [r]))
            = Finset.sum (((l.map resolveKey).toFinset).erase (resolveKey r))
              (lastScore m l) := Finset.sum_congr rfl hS
        linarith [h1, h2, h3, hlast_self, hlast]
      · have hlook : dlookup (buildScores m l) (resolveKey r) = none := by
          rw [dlookup_buildScores, Option.map_eq_none']
          rw [List.find?_eq_none]
          intro x hx
          simp only [decide_eq_true_eq]
          intro hc
          exact hmem (List.mem_map.mpr ⟨x, List.mem_reverse.mp hx, hc⟩)
        rw [dvaluesSum_dinsert_absent _ _ _ hlook, ih, hkeyset,
          Finset.sum_insert (by simpa [List.mem_toFinset] using hmem)]
        have hS : ∀ k ∈ (l.map resolveKey).toFinset,
            lastScore m (l ++ [r]) k = lastScore m l k := by
          intro k hk
          have hkne : resolveKey r ≠ k := by
            intro hc
            rw [hc] at hmem
            exact hmem (List.mem_toFinset.mp hk)
          rw [lastScore_append, if_neg hkne]
        rw [Finset.sum_congr rfl hS, hlast_self]
        ring

/-- C10: the scores mapping is keyed by the resolved identifying key:
the stored value at a key is the padded score of the last input row
resolving to it (so with pairwise-distinct keys each row keeps its own
score), the normalization total sums one stored value per distinct key
(colliding rows' earlier scores are dropped), and every emitted
suggestion's share is computed from the stored — i.e. last colliding —
score at its row's key. -/
theorem C10_score_dict_semantics :
    (∀ (m : Option ℚ) (rows : List ChRow) (k : Option PyV),
        dlookup (buildScores m rows) k
          = (rows.reverse.find? (fun r => resolveKey r = k)).map (padScore m))
    ∧ (∀ (m : Option ℚ) (rows : List ChRow) (ch : ChRow),
        (rows.map resolveKey).Nodup → ch ∈ rows →
        dlookup (buildScores m rows) (resolveKey ch) = some (padScore m ch))
    ∧ (∀ (m : Option ℚ) (rows : List ChRow),
        dvaluesSum (buildScores m rows)
          = Finset.sum (rows.map resolveKey).toFinset (lastScore m rows))
    ∧ (∀ (rows : List ChRow) (kpi : Option String) (cons : Constraints)
        (ch : ChRow), ch ∈ rows →
        suggestOne rows cons ch ∈ suggest_reallocation rows kpi cons
        ∧ rawShare rows cons ch
            = ((rows.reverse.find? (fun r => resolveKey r = resolveKey ch)).map
                (padScore cons.min_roas)).getD 1e-6
              / totalScore cons.min_roas rows
              * targetTotal (currentTotal rows) cons.max_spend) := by
  refine ⟨dlookup_buildScores, dlookup_buildScores_nodup,
    dvaluesSum_buildScores_finset, ?_⟩
  intro rows kpi cons ch hch
  refine ⟨List.mem_map_of_mem _ hch, ?_⟩
  simp only [rawShare, dlookup_buildScores]

/-- Two rows resolving to the same key `"x"` with different scores. -/
def colA : ChRow := ⟨some (.str "x"), none, none, some 1, none, some 10⟩

/-- Second row colliding with `colA` on key `"x"`. -/
def colB : ChRow := ⟨some (.str "x"), none, none, some 2, none, some 20⟩

/-- Witness for C10: on a colliding pair the stored score at the shared
key is the last row's; on a distinct-key pair each row keeps its own. -/
theorem C10_witness :
    dlookup (buildScores none [colA, colB]) (some (PyV.str "x"))
      = some (padScore none colB)
    ∧ dlookup (buildScores none [chA7, chB7]) (resolveKey chA7)
      = some (padScore none chA7) := by
  constructor
  · rw [C10_score_dict_semantics.1 none [colA, colB] (some (PyV.str "x"))]
    have hB : resolveKey colB = some (PyV.str "x") := by
      simp [resolveKey, pyOr, pyTruthy, colB]
    simp [List.find?, hB]
  · exact C10_score_dict_semantics.2.1 none [chA7, chB7] chA7
      (by simp [resolveKey, pyOr, pyTruthy, chA7, chB7])
      (List.mem_cons_self _ _)
